import Mathlib

/-!
Verification of the background mission queue of the peter-pixx-app repository.

The missions core lives in the `App` component (`src/components/AdjustmentPanel.tsx`,
second document) and `src/services/geminiService.ts`.  The definitions below are a
shallow embedding of that code: the `Mission` record, the localStorage ledger
(`getMissionsFromStorage` / `saveMissionsToStorage`), the IndexedDB result store
(`saveResult` / `getResult`), the load/requeue effect, the scheduler effect, and
`processMission` with its video poll loop.  Remote API calls are modelled by an
oracle (`RemoteApi`) returning `Except`; JavaScript awaits appear as sequencing,
and the possibility of a reload interrupting the poll loop is modelled by fuel.
-/

namespace PeterPixx

/-- `type MissionType = 'image-gen' | 'video-gen'` (App, Types section). -/
inductive MissionType where
  | imageGen
  | videoGen
deriving DecidableEq

/-- `status: 'pending' | 'in-progress' | 'completed' | 'failed'` of the Mission record. -/
inductive MissionStatus where
  | pending
  | inProgress
  | completed
  | failed
deriving DecidableEq

/-- Innermost field of the video operation handle: `video.uri` may be absent
(the source reads it as `...video?.uri`). -/
structure VideoFile where
  uri : Option String
deriving DecidableEq

/-- One element of `response.generatedVideos`; its `video` field may be absent. -/
structure GeneratedVideo where
  video : Option VideoFile
deriving DecidableEq

/-- The `response` object of a video operation; `generatedVideos` may be absent
(the source reads `response?.generatedVideos?.[0]`). -/
structure OperationResponse where
  generatedVideos : Option (List GeneratedVideo)
deriving DecidableEq

/-- The opaque video operation handle: the code relies only on `done` and the
optional `response` chain, per the access `operation.response?.generatedVideos?.[0]?.video?.uri`. -/
structure Operation where
  done : Bool
  response : Option OperationResponse
deriving DecidableEq

/-- The extraction `operation.response?.generatedVideos?.[0]?.video?.uri`
from `processMission` (video completion). -/
def Operation.downloadLink (op : Operation) : Option String :=
  (((op.response.bind fun r => r.generatedVideos).bind fun vs => vs.head?).bind
    fun gv => gv.video).bind fun vf => vf.uri

/-- The `Mission` interface of the App component.  `result?: boolean`,
`error?: string`, `progressMessage?: string` and `operation?: any` are optional
fields, so they are `Option`s here. -/
structure Mission where
  id : String
  type : MissionType
  prompt : String
  status : MissionStatus
  progressMessage : Option String := none
  result : Option Bool := none
  error : Option String := none
  createdAt : Nat
  operation : Option Operation := none
deriving DecidableEq

/-- `setMissions(prev => prev.map(m => m.id === id ? { ...m, ...updates } : m))`:
the single update path merging a partial update into the mission with the given id.
Each call site's literal update object becomes the function `f`. -/
def updateMission (id : String) (f : Mission → Mission) (missions : List Mission) :
    List Mission :=
  missions.map fun m => if m.id = id then f m else m

/-- `m.status === 'in-progress' || m.status === 'pending'`, the filter predicate of
the load/requeue effect. -/
def Mission.isUnfinished (m : Mission) : Bool :=
  m.status == .inProgress || m.status == .pending

/-- The mission load effect of the App component: unfinished (pending or
in-progress) missions are downgraded to pending and moved after the others;
when there are none the loaded list is returned as-is. -/
def requeueLoadedMissions (loadedMissions : List Mission) : List Mission :=
  let unfinishedMissions := loadedMissions.filter fun m => m.isUnfinished
  if unfinishedMissions.length > 0 then
    let requeued := unfinishedMissions.map fun m => { m with status := .pending }
    let completed := loadedMissions.filter fun m =>
      !(m.status == .inProgress) && !(m.status == .pending)
    completed ++ requeued
  else
    loadedMissions

/-- The mission literal built by `handleStartMission`:
`{ id: mission_$Date.now, type, prompt, status: 'pending', createdAt: Date.now() }`
(the id is the template string over the millisecond clock). -/
def newMission (type' : MissionType) (prompt : String) (now : Nat) : Mission :=
  { id := "mission_" ++ Nat.repr now
    type := type'
    prompt := prompt
    status := .pending
    createdAt := now }

/-- `handleStartMission`: appends the new pending mission to the ledger. -/
def handleStartMission (type' : MissionType) (prompt : String) (now : Nat)
    (missions : List Mission) : List Mission :=
  missions ++ [newMission type' prompt now]

/-- The scheduler effect body (`missions.find(m => m.status === 'pending')`).
Note there is no check that no mission is currently in-progress. -/
def schedulerPick (missions : List Mission) : Option Mission :=
  missions.find? fun m => m.status == .pending

/-- The first write of `processMission`:
`updateMission(mission.id, { status: 'in-progress', progressMessage: 'Starting...' })`. -/
def beginMission (id : String) (missions : List Mission) : List Mission :=
  updateMission id
    (fun m => { m with status := .inProgress, progressMessage := some "Starting..." })
    missions

/-- Number of missions currently in progress. -/
def countInProgress (missions : List Mission) : Nat :=
  (missions.filter fun m => m.status == .inProgress).length

/-! Sample missions used as concrete inputs in witnesses and evaluations. -/

/-- A completed sample mission. -/
def sampleDone : Mission :=
  { id := "mission_10", type := .imageGen, prompt := "a sunset", status := .completed
    result := some true, createdAt := 10 }

/-- A failed sample mission. -/
def sampleFailed : Mission :=
  { id := "mission_20", type := .videoGen, prompt := "a dog running", status := .failed
    error := some "network error", createdAt := 20 }

/-- An in-progress sample mission. -/
def sampleRun : Mission :=
  { id := "mission_30", type := .videoGen, prompt := "a storm", status := .inProgress
    progressMessage := some "Starting...", createdAt := 30 }

/-- A pending sample mission. -/
def samplePend : Mission :=
  { id := "mission_40", type := .imageGen, prompt := "a cat", status := .pending
    createdAt := 40 }

/-- A second pending sample mission. -/
def samplePend2 : Mission :=
  { id := "mission_50", type := .videoGen, prompt := "a dog", status := .pending
    createdAt := 50 }

/-- C1, evaluation at the failing input.  With a ledger holding two pending
missions (exactly what the load effect produces after a reload with two
unfinished missions), the scheduler effect picks the first and
`processMission` marks it in-progress; the resulting ledger change re-fires the
effect, which — lacking any no-mission-in-progress guard — picks the second
pending mission and starts it while the first is still in progress, leaving two
missions in-progress at once. -/
theorem scheduler_double_start_eval :
    schedulerPick [samplePend, samplePend2] = some samplePend ∧
    schedulerPick (beginMission samplePend.id [samplePend, samplePend2]) = some samplePend2 ∧
    countInProgress
      (beginMission samplePend2.id
        (beginMission samplePend.id [samplePend, samplePend2])) = 2 := by
  decide

/-- A requeued mission keeps its identity and is pending. -/
theorem isUnfinished_requeued (m : Mission) :
    ({ m with status := .pending } : Mission).isUnfinished = true := by
  simp [Mission.isUnfinished]

/-- The two status tests of the terminal filter are the negation of `isUnfinished`. -/
theorem terminal_filter_pred (m : Mission) :
    (!(m.status == MissionStatus.inProgress) && !(m.status == MissionStatus.pending))
      = !m.isUnfinished := by
  simp [Mission.isUnfinished, Bool.not_or]

/-- C3: after the load effect, every mission whose persisted status was pending or
in-progress reappears with status pending, every completed or failed mission
reappears unchanged, and the re-queued missions keep their relative order (their
ids, in order, are those of the unfinished missions of the loaded list). -/
theorem requeue_statuses_and_order (loadedMissions : List Mission) :
    (∀ m ∈ loadedMissions, m.isUnfinished = true →
        ({ m with status := .pending } : Mission) ∈ requeueLoadedMissions loadedMissions) ∧
    (∀ m ∈ loadedMissions, m.isUnfinished = false →
        m ∈ requeueLoadedMissions loadedMissions) ∧
    ((requeueLoadedMissions loadedMissions).filter (fun m => m.isUnfinished)).map Mission.id
      = (loadedMissions.filter (fun m => m.isUnfinished)).map Mission.id := by
  unfold requeueLoadedMissions
  by_cases h : 0 < (loadedMissions.filter fun m => m.isUnfinished).length
  · simp only [gt_iff_lt, h, if_true]
    refine ⟨?_, ?_, ?_⟩
    · intro m hm hu
      refine List.mem_append_right _ ?_
      exact List.mem_map_of_mem _ (List.mem_filter.mpr ⟨hm, hu⟩)
    · intro m hm hu
      refine List.mem_append_left _ ?_
      refine List.mem_filter.mpr ⟨hm, ?_⟩
      rw [terminal_filter_pred, hu]
      rfl
    · rw [List.filter_append]
      have h1 : (loadedMissions.filter fun m =>
          !(m.status == MissionStatus.inProgress) && !(m.status == MissionStatus.pending)).filter
            (fun m => m.isUnfinished) = [] := by
        rw [List.filter_filter]
        refine List.filter_eq_nil_iff.mpr fun m _ => ?_
        rw [terminal_filter_pred]
        cases m.isUnfinished <;> simp
      have h2 : ((loadedMissions.filter fun m => m.isUnfinished).map
            (fun m => { m with status := MissionStatus.pending })).filter
              (fun m => m.isUnfinished)
          = (loadedMissions.filter fun m => m.isUnfinished).map
              (fun m => { m with status := MissionStatus.pending }) := by
        refine List.filter_eq_self.mpr fun m hm => ?_
        rcases List.mem_map.mp hm with ⟨m₀, _, rfl⟩
        exact isUnfinished_requeued m₀
      rw [h1, h2, List.nil_append, List.map_map]
      rfl
  · simp only [gt_iff_lt, h, if_false]
    have hnil : (loadedMissions.filter fun m => m.isUnfinished) = [] := by
      rcases List.eq_nil_or_concat (loadedMissions.filter fun m => m.isUnfinished) with h0 | ⟨_, _, h0⟩
      · exact h0
      · exact absurd (by rw [h0]; simp) h
    refine ⟨?_, ?_, ?_⟩
    · intro m hm hu
      exact absurd (List.mem_filter.mpr ⟨hm, hu⟩) (by rw [hnil]; exact List.not_mem_nil m)
    · intro m hm _
      exact hm
    · trivial

/-- C3 witness at a concrete ledger: the in-progress sample mission reappears
as pending after the load effect. -/
theorem requeue_statuses_and_order_witness :
    ({ sampleRun with status := .pending } : Mission)
      ∈ requeueLoadedMissions [sampleDone, sampleRun] :=
  (requeue_statuses_and_order [sampleDone, sampleRun]).1 sampleRun (by decide) (by decide)

/-- C10: when at least one loaded mission is unfinished, the load effect returns
the terminal missions (in their original order) followed by the re-queued
missions (in their original order, downgraded to pending); when no mission is
unfinished the loaded list is returned unchanged. -/
theorem requeue_reorders_terminal_first (loadedMissions : List Mission) :
    ((∃ m ∈ loadedMissions, m.isUnfinished = true) →
      requeueLoadedMissions loadedMissions =
        (loadedMissions.filter fun m => !m.isUnfinished)
          ++ ((loadedMissions.filter fun m => m.isUnfinished).map
                fun m => { m with status := MissionStatus.pending })) ∧
    ((∀ m ∈ loadedMissions, m.isUnfinished = false) →
      requeueLoadedMissions loadedMissions = loadedMissions) := by
  constructor
  · rintro ⟨m, hm, hu⟩
    have hpos : 0 < (loadedMissions.filter fun m => m.isUnfinished).length :=
      List.length_pos.mpr (List.ne_nil_of_mem (List.mem_filter.mpr ⟨hm, hu⟩))
    unfold requeueLoadedMissions
    simp only [gt_iff_lt, hpos, if_true]
    congr 1
    refine List.filter_congr fun m _ => ?_
    exact terminal_filter_pred m
  · intro hall
    have hnil : (loadedMissions.filter fun m => m.isUnfinished) = [] :=
      List.filter_eq_nil_iff.mpr fun m hm => by rw [hall m hm]; exact Bool.false_ne_true
    unfold requeueLoadedMissions
    simp [hnil]

/-- C10 witness at a concrete ledger with one terminal and one unfinished mission. -/
theorem requeue_reorders_terminal_first_witness :
    requeueLoadedMissions [sampleRun, sampleDone] =
      ([sampleRun, sampleDone].filter fun m => !m.isUnfinished)
        ++ (([sampleRun, sampleDone].filter fun m => m.isUnfinished).map
              fun m => { m with status := MissionStatus.pending }) :=
  (requeue_reorders_terminal_first [sampleRun, sampleDone]).1 ⟨sampleRun, by decide, by decide⟩

/-! Decimal string representations.  `newMission` builds the mission id from the
millisecond clock via the decimal printing of the timestamp; to reason about id
collisions we relate `Nat.repr` to a structurally recursive digit list and show
the latter is injective via the evaluation map back to `Nat`. -/

/-- Most-significant-first decimal digit characters of a natural number. -/
def digitsRevChars (n : Nat) : List Char :=
  if _h : n < 10 then [Nat.digitChar n]
  else digitsRevChars (n / 10) ++ [Nat.digitChar (n % 10)]
termination_by n
decreasing_by
  exact Nat.div_lt_self (by omega) (by omega)

/-- Numeric value of a decimal digit character. -/
def charVal (c : Char) : Nat := c.toNat - 48

/-- Evaluation of a most-significant-first decimal digit character list. -/
def decValChars (l : List Char) : Nat :=
  l.foldl (fun acc c => acc * 10 + charVal c) 0

theorem charVal_digitChar {n : Nat} (h : n < 10) : charVal (Nat.digitChar n) = n := by
  interval_cases n <;> rfl

theorem decValChars_append_digit (l : List Char) (c : Char) :
    decValChars (l ++ [c]) = decValChars l * 10 + charVal c := by
  simp [decValChars, List.foldl_append]

/-- `decValChars` is a left inverse of `digitsRevChars`. -/
theorem decValChars_digitsRevChars (n : Nat) : decValChars (digitsRevChars n) = n := by
  induction n using Nat.strong_induction_on with
  | _ n ih =>
    rw [digitsRevChars]
    split
    · next h =>
      simp [decValChars, charVal_digitChar h]
    · next h =>
      rw [decValChars_append_digit,
        ih (n / 10) (Nat.div_lt_self (by omega) (by omega)),
        charVal_digitChar (Nat.mod_lt n (by omega))]
      omega

/-- With enough fuel, the kernel's digit printer produces exactly
`digitsRevChars n` in front of the accumulator. -/
theorem toDigitsCore_eq_digitsRevChars (n : Nat) :
    ∀ f l, n ≤ f → Nat.toDigitsCore 10 (f + 1) n l = digitsRevChars n ++ l := by
  induction n using Nat.strong_induction_on with
  | _ n ih =>
    intro f l hf
    rw [Nat.toDigitsCore]
    by_cases h0 : n / 10 = 0
    · have hn : n < 10 := by omega
      rw [if_pos h0, digitsRevChars, dif_pos hn, Nat.mod_eq_of_lt hn]
      rfl
    · have hn : ¬n < 10 := by omega
      have hflt : 1 ≤ f := by omega
      obtain ⟨f', rfl⟩ : ∃ f', f = f' + 1 := ⟨f - 1, by omega⟩
      rw [if_neg h0,
        ih (n / 10) (Nat.div_lt_self (by omega) (by omega)) f'
          (Nat.digitChar (n % 10) :: l) (by omega)]
      conv_rhs => rw [digitsRevChars]
      rw [dif_neg hn, List.append_assoc]
      rfl

/-- The kernel's decimal printer agrees with `digitsRevChars`. -/
theorem repr_eq_digitsRevChars (n : Nat) : Nat.repr n = (digitsRevChars n).asString := by
  show (Nat.toDigits 10 n).asString = _
  rw [Nat.toDigits, toDigitsCore_eq_digitsRevChars n n [] (Nat.le_refl n), List.append_nil]

/-- Distinct naturals have distinct decimal representations. -/
theorem repr_injective {a b : Nat} (h : Nat.repr a = Nat.repr b) : a = b := by
  rw [repr_eq_digitsRevChars, repr_eq_digitsRevChars] at h
  have hdata : digitsRevChars a = digitsRevChars b := by
    have := congrArg String.data h
    simpa [List.asString] using this
  have := congrArg decValChars hdata
  rwa [decValChars_digitsRevChars, decValChars_digitsRevChars] at this

/-- C6, counterexample: two missions enqueued within the same millisecond get the
same id.  `handleStartMission` derives the id purely from `Date.now()`, so two
distinct missions (different type and prompt) created at the same clock value
collide; nothing in the code enforces uniqueness. -/
theorem mission_id_collision_same_millis :
    handleStartMission .videoGen "a dog" 1700000000000
        (handleStartMission .imageGen "a cat" 1700000000000 [])
      = [newMission .imageGen "a cat" 1700000000000,
         newMission .videoGen "a dog" 1700000000000] ∧
    newMission .imageGen "a cat" 1700000000000
      ≠ newMission .videoGen "a dog" 1700000000000 ∧
    (newMission .imageGen "a cat" 1700000000000).id
      = (newMission .videoGen "a dog" 1700000000000).id := by
  refine ⟨?_, ?_, ?_⟩ <;> decide

/-- C6, amended: missions enqueued at distinct millisecond timestamps have
distinct ids (the id embeds the decimal printing of the creation time, which is
injective); uniqueness fails only when two enqueues share a clock value. -/
theorem mission_ids_distinct_of_distinct_times
    (t₁ t₂ : MissionType) (p₁ p₂ : String) (n₁ n₂ : Nat) (h : n₁ ≠ n₂) :
    (newMission t₁ p₁ n₁).id ≠ (newMission t₂ p₂ n₂).id := by
  intro heq
  apply h
  apply repr_injective
  apply String.ext
  have hdata := congrArg String.data heq
  simpa [newMission, String.data_append] using hdata

/-- C6 amended, witness at two concrete timestamps one millisecond apart. -/
theorem mission_ids_distinct_of_distinct_times_witness :
    (newMission .imageGen "a cat" 1700000000000).id
      ≠ (newMission .videoGen "a dog" 1700000000001).id :=
  mission_ids_distinct_of_distinct_times _ _ _ _ _ _ (by decide)

/-! The IndexedDB result store (`saveResult` / `getResult`) and the remote
generation API of `geminiService.ts`, as seen by `processMission`. -/

/-- A stored result: either the ordered image batch of an image mission or the
binary video payload of a video mission. -/
inductive Payload where
  | images (imgs : List String)
  | blob (bytes : String)
deriving DecidableEq

/-- The IndexedDB object store keyed by mission id, newest write first. -/
abbrev ResultStore := List (String × Payload)

/-- `saveResult(id, result)`: put with overwrite-by-key semantics. -/
def saveResult (id : String) (result : Payload) (store : ResultStore) : ResultStore :=
  (id, result) :: store

/-- `getResult(id)`: the most recent payload stored under the id, if any. -/
def getResult (id : String) (store : ResultStore) : Option Payload :=
  store.lookup id

/-- `img.image` of a generated image: the object holding the encoded bytes. -/
structure ImageFile where
  imageBytes : String
deriving DecidableEq

/-- One element of `response.generatedImages`. -/
structure GeneratedImage where
  image : ImageFile
deriving DecidableEq

/-- The response of `ai.models.generateImages`. -/
structure ImagesResponse where
  generatedImages : List GeneratedImage
deriving DecidableEq

/-- The request built by `generateImageFromPrompt` in `geminiService.ts`. -/
structure ImageRequest where
  model : String
  prompt : String
  numberOfImages : Nat
  outputMimeType : String
  aspectRatio : String
deriving DecidableEq

/-- The literal request of `generateImageFromPrompt`: model
`imagen-4.0-generate-001` with a fixed batch of 4 png images. -/
def imageGenRequest (prompt : String) : ImageRequest :=
  { model := "imagen-4.0-generate-001"
    prompt := prompt
    numberOfImages := 4
    outputMimeType := "image/png"
    aspectRatio := "1:1" }

/-- The remote generation API as an oracle: all calls are fallible and a thrown
error carries its message. -/
structure RemoteApi where
  generateImages : ImageRequest → Except String ImagesResponse
  generateVideos : String → Except String Operation
  getVideosOperation : Operation → Except String Operation
  fetchVideo : String → Except String String

/-- `generateImageFromPrompt` of `geminiService.ts`: one `generateImages` call,
then `response.generatedImages.map(img => img.image.imageBytes)`. -/
def generateImageFromPrompt (api : RemoteApi) (prompt : String) :
    Except String (List String) :=
  (api.generateImages (imageGenRequest prompt)).map fun response =>
    response.generatedImages.map fun img => img.image.imageBytes

/-- Remote-call and persistence events performed while processing one mission,
in order. -/
inductive RemoteEvent where
  | imageRequest (req : ImageRequest)
  | videoSubmit (prompt : String)
  | videoPoll (op : Operation)
  | videoFetch (uri : String)
  | storeWrite (id : String) (payload : Payload)
  | markCompleted (id : String)
  | markFailed (id : String) (error : String)
deriving DecidableEq

/-- Whether an event is a video submission. -/
def RemoteEvent.isSubmit : RemoteEvent → Bool
  | .videoSubmit _ => true
  | _ => false

/-- The rotating human-readable progress strings of the video poll loop. -/
def loadingMessages : List String :=
  ["Brewing cosmic coffee for the AI...",
   "Teaching pixels to dance...",
   "This can take a few minutes...",
   "Reticulating splines...",
   "Finalizing the motion picture..."]

/-- Exit of the video poll loop: the operation became done, the run was cut by a
reload (fuel exhausted at the loop head), or a poll call threw. -/
inductive PollExit where
  | done (op : Operation) (missions : List Mission)
  | interrupted (op : Operation) (missions : List Mission)
  | pollError (e : String) (missions : List Mission)
deriving DecidableEq

/-- The ledger at a poll-loop exit. -/
def PollExit.missions : PollExit → List Mission
  | .done _ l => l
  | .interrupted _ l => l
  | .pollError _ l => l

/-- The progress-message write of one poll-loop iteration:
`updateMission(mission.id, { progressMessage: loadingMessages[msgIndex % loadingMessages.length] })`. -/
def progressWrite (missionId : String) (msgIndex : Nat) (missions : List Mission) :
    List Mission :=
  updateMission missionId
    (fun m => { m with progressMessage := some (loadingMessages.getD (msgIndex % loadingMessages.length) "") })
    missions

/-- The `while (!operation.done)` loop of `processMission`: each iteration
writes the next rotating progress message into the ledger, sleeps, and re-polls
the operation.  The fuel bounds how many iterations run before the
surrounding page is reloaded; the loop itself has no exit other than `done`
or a thrown error. -/
def videoPollLoop (api : RemoteApi) (missionId : String) :
    Nat → Operation → Nat → List Mission → List RemoteEvent →
      PollExit × List RemoteEvent
  | 0, operation, _msgIndex, missions, events =>
    if operation.done then (.done operation missions, events)
    else (.interrupted operation missions, events)
  | fuel + 1, operation, msgIndex, missions, events =>
    if operation.done then (.done operation missions, events)
    else
      match api.getVideosOperation operation with
      | .error e =>
        (.pollError e (progressWrite missionId msgIndex missions),
          events ++ [.videoPoll operation])
      | .ok operation' =>
        videoPollLoop api missionId fuel operation' (msgIndex + 1)
          (progressWrite missionId msgIndex missions)
          (events ++ [.videoPoll operation])

/-- The catch branch of `processMission`:
`updateMission(mission.id, { status: 'failed', error })`. -/
def failMission (id : String) (error : String) (missions : List Mission) :
    List Mission :=
  updateMission id (fun m => { m with status := .failed, error := some error })
    missions

/-- The error thrown when a done video operation carries no result URI. -/
def noUrlMsg : String := "Video generation finished, but no URL was returned."

/-- Result of one `processMission` run: the mission either reached the end of
the function body (completion or the catch branch), or its poll loop was cut by
a reload.  Either way the final ledger, result store, and the ordered remote
events are recorded. -/
inductive ProcResult where
  | finished (missions : List Mission) (store : ResultStore) (trace : List RemoteEvent)
  | interrupted (latestOp : Operation) (missions : List Mission) (store : ResultStore)
      (trace : List RemoteEvent)
deriving DecidableEq

/-- The ledger of a `ProcResult`. -/
def ProcResult.missions : ProcResult → List Mission
  | .finished l _ _ => l
  | .interrupted _ l _ _ => l

/-- The result store of a `ProcResult`. -/
def ProcResult.store : ProcResult → ResultStore
  | .finished _ s _ => s
  | .interrupted _ _ s _ => s

/-- The event trace of a `ProcResult`. -/
def ProcResult.trace : ProcResult → List RemoteEvent
  | .finished _ _ t => t
  | .interrupted _ _ _ t => t

/-- Whether the run reached the end of the function body. -/
def ProcResult.isFinished : ProcResult → Bool
  | .finished _ _ _ => true
  | .interrupted _ _ _ _ => false

/-- Continuation of the video phase after the poll loop: on `done`, extract
`response?.generatedVideos?.[0]?.video?.uri`; if present fetch the binary
payload, store it, and mark completed, else throw the no-URL error; any thrown
error is converted by the catch branch into `failed` plus `error`; an
interrupted loop simply stops with the ledger as written so far. -/
def videoPhaseFinish (api : RemoteApi) (missionId : String) (store : ResultStore) :
    PollExit → List RemoteEvent → ProcResult
  | .interrupted op' missions', events' => .interrupted op' missions' store events'
  | .pollError e missions', events' =>
    .finished (failMission missionId e missions') store (events' ++ [.markFailed missionId e])
  | .done op' missions', events' =>
    match op'.downloadLink with
    | some uri =>
      match api.fetchVideo uri with
      | .error e =>
        .finished (failMission missionId e missions') store
          (events' ++ [.videoFetch uri, .markFailed missionId e])
      | .ok bytes =>
        .finished
          (updateMission missionId
            (fun m => { m with status := .completed, result := some true, progressMessage := some "Done!" })
            missions')
          (saveResult missionId (.blob bytes) store)
          (events' ++ [.videoFetch uri, .storeWrite missionId (.blob bytes),
            .markCompleted missionId])
    | none =>
      .finished (failMission missionId noUrlMsg missions') store
        (events' ++ [.markFailed missionId noUrlMsg])

/-- The video phase of `processMission` from the poll loop on. -/
def videoPhase (api : RemoteApi) (fuel : Nat) (missionId : String) (operation : Operation)
    (missions : List Mission) (store : ResultStore) (events : List RemoteEvent) :
    ProcResult :=
  let r := videoPollLoop api missionId fuel operation 0 missions events
  videoPhaseFinish api missionId store r.1 r.2

/-- `processMission` of the App component.  The mission is first marked
in-progress; an image mission performs one `generateImageFromPrompt` call,
stores the batch and marks completed; a video mission submits only when it has
no recorded handle, stores the returned handle, then enters the poll loop.
All thrown errors are absorbed by the catch branch into `failed` + `error`. -/
def processMission (api : RemoteApi) (fuel : Nat) (mission : Mission)
    (missions : List Mission) (store : ResultStore) : ProcResult :=
  let missions₁ := beginMission mission.id missions
  match mission.type with
  | .imageGen =>
    let missions₂ := updateMission mission.id
      (fun m => { m with progressMessage := some "Generating images..." }) missions₁
    match generateImageFromPrompt api mission.prompt with
    | .error err =>
      .finished (failMission mission.id err missions₂) store
        [.imageRequest (imageGenRequest mission.prompt), .markFailed mission.id err]
    | .ok images =>
      .finished
        (updateMission mission.id
          (fun m => { m with status := .completed, result := some true }) missions₂)
        (saveResult mission.id (.images images) store)
        [.imageRequest (imageGenRequest mission.prompt),
         .storeWrite mission.id (.images images), .markCompleted mission.id]
  | .videoGen =>
    match mission.operation with
    | some operation => videoPhase api fuel mission.id operation missions₁ store []
    | none =>
      let missions₂ := updateMission mission.id
        (fun m => { m with progressMessage := some "Initializing video..." }) missions₁
      match api.generateVideos mission.prompt with
      | .error err =>
        .finished (failMission mission.id err missions₂) store
          [.videoSubmit mission.prompt, .markFailed mission.id err]
      | .ok operation =>
        let missions₃ := updateMission mission.id
          (fun m => { m with operation := some operation }) missions₂
        videoPhase api fuel mission.id operation missions₃ store
          [.videoSubmit mission.prompt]

/-- The latest in-memory operation handle when a run was interrupted. -/
def ProcResult.latestOp? : ProcResult → Option Operation
  | .finished _ _ _ => none
  | .interrupted op _ _ _ => some op

/-- Forget the progress message of a mission (every other field kept). -/
def Mission.stripProgress (m : Mission) : Mission :=
  { m with progressMessage := none }

/-- Membership in an updated ledger: an entry is either an untouched mission of
the original ledger (with a different id) or the update of a matching one. -/
theorem mem_updateMission {id : String} {f : Mission → Mission} {l : List Mission}
    {m : Mission} (h : m ∈ updateMission id f l) :
    (∃ m₀ ∈ l, m₀.id = id ∧ m = f m₀) ∨ (m ∈ l ∧ ¬m.id = id) := by
  unfold updateMission at h
  rcases List.mem_map.mp h with ⟨m₀, hm₀, heq⟩
  by_cases hid : m₀.id = id
  · exact Or.inl ⟨m₀, hm₀, hid, by rw [← heq, if_pos hid]⟩
  · refine Or.inr ?_
    rw [← heq, if_neg hid]
    exact ⟨hm₀, hid⟩

/-- Updating a matching mission keeps every non-matching mission and maps each
original entry into the ledger. -/
theorem mem_updateMission_of_mem {id : String} {f : Mission → Mission} {l : List Mission}
    {m : Mission} (h : m ∈ l) :
    (if m.id = id then f m else m) ∈ updateMission id f l :=
  List.mem_map_of_mem _ h

/-- A pointwise property carries across ledgers with equal progress-stripped images. -/
theorem strip_eq_transfer {l l' : List Mission}
    (h : l'.map Mission.stripProgress = l.map Mission.stripProgress)
    {P : Mission → Prop}
    (hP : ∀ m₀ m : Mission, m₀.stripProgress = m.stripProgress → P m₀ → P m)
    (hl : ∀ m ∈ l, P m) : ∀ m ∈ l', P m := by
  intro m hm
  have hmem : m.stripProgress ∈ l.map Mission.stripProgress :=
    h ▸ List.mem_map_of_mem _ hm
  rcases List.mem_map.mp hmem with ⟨m₀, hm₀, hs⟩
  exact hP m₀ m hs (hl m₀ hm₀)

/-- Progress-stripped missions agree on all remaining fields. -/
theorem stripProgress_fields {m₀ m : Mission} (h : m₀.stripProgress = m.stripProgress) :
    m₀.id = m.id ∧ m₀.status = m.status ∧ m₀.error = m.error ∧
      m₀.operation = m.operation ∧ m₀.type = m.type ∧ m₀.result = m.result := by
  have h1 : m₀.stripProgress.id = m.stripProgress.id := congrArg _ h
  have h2 : m₀.stripProgress.status = m.stripProgress.status := congrArg _ h
  have h3 : m₀.stripProgress.error = m.stripProgress.error := congrArg _ h
  have h4 : m₀.stripProgress.operation = m.stripProgress.operation := congrArg _ h
  have h5 : m₀.stripProgress.type = m.stripProgress.type := congrArg _ h
  have h6 : m₀.stripProgress.result = m.stripProgress.result := congrArg _ h
  exact ⟨h1, h2, h3, h4, h5, h6⟩

/-- Writing a progress message changes nothing else in the ledger. -/
theorem map_strip_progress_update (id : String) (msgIndex : Nat) (l : List Mission) :
    (progressWrite id msgIndex l).map Mission.stripProgress
      = l.map Mission.stripProgress := by
  unfold progressWrite updateMission
  rw [List.map_map]
  refine List.map_congr_left fun m _ => ?_
  simp only [Function.comp_apply]
  by_cases h : m.id = id
  · rw [if_pos h]
    rfl
  · rw [if_neg h]

/-- Unfolding: a done operation exits the loop at once. -/
theorem videoPollLoop_done (api : RemoteApi) (missionId : String) (fuel : Nat)
    (op : Operation) (idx : Nat) (l : List Mission) (ev : List RemoteEvent)
    (h : op.done = true) :
    videoPollLoop api missionId fuel op idx l ev = (.done op l, ev) := by
  cases fuel <;> simp only [videoPollLoop] <;> rw [if_pos h]

/-- Unfolding: exhausted fuel interrupts the loop at its head. -/
theorem videoPollLoop_zero (api : RemoteApi) (missionId : String)
    (op : Operation) (idx : Nat) (l : List Mission) (ev : List RemoteEvent)
    (h : op.done = false) :
    videoPollLoop api missionId 0 op idx l ev = (.interrupted op l, ev) := by
  simp only [videoPollLoop]
  rw [if_neg (by simp [h])]

/-- Unfolding: one iteration on a not-done operation writes the progress
message, records the poll, and continues (or stops on a thrown poll error). -/
theorem videoPollLoop_succ (api : RemoteApi) (missionId : String) (f : Nat)
    (op : Operation) (idx : Nat) (l : List Mission) (ev : List RemoteEvent)
    (h : op.done = false) :
    videoPollLoop api missionId (f + 1) op idx l ev =
      match api.getVideosOperation op with
      | .error e => (.pollError e (progressWrite missionId idx l), ev ++ [.videoPoll op])
      | .ok op' =>
        videoPollLoop api missionId f op' (idx + 1) (progressWrite missionId idx l)
          (ev ++ [.videoPoll op]) := by
  simp only [videoPollLoop]
  rw [if_neg (by simp [h])]

/-- The poll loop writes only progress messages: in every exit, stripping the
progress messages recovers the incoming ledger. -/
theorem videoPollLoop_missions_strip (api : RemoteApi) (missionId : String) :
    ∀ (fuel : Nat) (operation : Operation) (msgIndex : Nat) (missions : List Mission)
      (events : List RemoteEvent),
      ((videoPollLoop api missionId fuel operation msgIndex missions events).1).missions.map
          Mission.stripProgress = missions.map Mission.stripProgress := by
  intro fuel
  induction fuel with
  | zero =>
    intro op idx l ev
    cases h : op.done
    · rw [videoPollLoop_zero api missionId op idx l ev h]
      rfl
    · rw [videoPollLoop_done api missionId 0 op idx l ev h]
      rfl
  | succ f ih =>
    intro op idx l ev
    cases h : op.done
    · rw [videoPollLoop_succ api missionId f op idx l ev h]
      cases happ : api.getVideosOperation op with
      | error e =>
        exact map_strip_progress_update missionId idx l
      | ok op' =>
        have hrec := ih op' (idx + 1) (progressWrite missionId idx l) (ev ++ [.videoPoll op])
        rw [map_strip_progress_update] at hrec
        exact hrec
    · rw [videoPollLoop_done api missionId (f + 1) op idx l ev h]
      rfl

/-- The poll-loop trace extends the incoming trace by poll events only. -/
theorem videoPollLoop_trace (api : RemoteApi) (missionId : String) :
    ∀ (fuel : Nat) (operation : Operation) (msgIndex : Nat) (missions : List Mission)
      (events : List RemoteEvent),
      ∃ tail, (videoPollLoop api missionId fuel operation msgIndex missions events).2
          = events ++ tail ∧ ∀ e ∈ tail, ∃ o, e = RemoteEvent.videoPoll o := by
  intro fuel
  induction fuel with
  | zero =>
    intro op idx l ev
    cases h : op.done
    · rw [videoPollLoop_zero api missionId op idx l ev h]
      exact ⟨[], by simp⟩
    · rw [videoPollLoop_done api missionId 0 op idx l ev h]
      exact ⟨[], by simp⟩
  | succ f ih =>
    intro op idx l ev
    cases h : op.done
    · rw [videoPollLoop_succ api missionId f op idx l ev h]
      cases happ : api.getVideosOperation op with
      | error e =>
        refine ⟨[.videoPoll op], rfl, ?_⟩
        simp
      | ok op' =>
        rcases ih op' (idx + 1) (progressWrite missionId idx l) (ev ++ [.videoPoll op])
          with ⟨tail, htr, htail⟩
        refine ⟨[.videoPoll op] ++ tail, by rw [htr, List.append_assoc], ?_⟩
        intro e he
        rcases List.mem_append.mp he with he | he
        · exact ⟨op, by simpa using he⟩
        · exact htail e he
    · rw [videoPollLoop_done api missionId (f + 1) op idx l ev h]
      exact ⟨[], by simp⟩

/-- An interrupted video phase leaves the incoming ledger intact except for
progress messages. -/
theorem videoPhase_interrupted_strip {api : RemoteApi} {fuel : Nat} {missionId : String}
    {operation : Operation} {missions : List Mission} {store : ResultStore}
    {events : List RemoteEvent} {op' : Operation} {l' : List Mission} {s' : ResultStore}
    {t' : List RemoteEvent}
    (h : videoPhase api fuel missionId operation missions store events
        = .interrupted op' l' s' t') :
    l'.map Mission.stripProgress = missions.map Mission.stripProgress := by
  have hstrip := videoPollLoop_missions_strip api missionId fuel operation 0 missions events
  unfold videoPhase at h
  rcases hl : videoPollLoop api missionId fuel operation 0 missions events with ⟨exit, evs⟩
  rw [hl] at h hstrip
  cases exit with
  | interrupted o ml =>
    simp only [videoPhaseFinish] at h
    cases h
    exact hstrip
  | done o ml =>
    simp only [videoPhaseFinish] at h
    cases hdl : o.downloadLink with
    | none => simp [hdl] at h
    | some uri =>
      simp only [hdl] at h
      cases hf : api.fetchVideo uri with
      | error e => simp [hf] at h
      | ok bytes => simp [hf] at h
  | pollError e ml =>
    simp only [videoPhaseFinish] at h
    cases h

/-- The resume handle: the handle already recorded on the mission, or the one
returned by submission when none was recorded. -/
def resumedHandle (api : RemoteApi) (mission : Mission) : Option Operation :=
  match mission.operation with
  | some op => some op
  | none =>
    match api.generateVideos mission.prompt with
    | .ok op => some op
    | .error _ => none

/-- Matching entries of an updated ledger satisfy whatever the update
guarantees, provided the update keeps ids. -/
theorem updateMission_id_prop {id : String} {f : Mission → Mission} {l : List Mission}
    {Q : Mission → Prop} (h : ∀ m ∈ l, m.id = id → Q (f m)) :
    ∀ m ∈ updateMission id f l, m.id = id → Q m := by
  intro m hm hid
  rcases mem_updateMission hm with ⟨m₀, hm₀, hid₀, rfl⟩ | ⟨_, hne⟩
  · exact h m₀ hm₀ hid₀
  · exact absurd hid hne

/-- A fixed operation value recorded on every matching entry carries across
ledgers whose progress-stripped images agree. -/
theorem strip_eq_id_op_transfer {l l' : List Mission} {id : String}
    (h : l'.map Mission.stripProgress = l.map Mission.stripProgress)
    (C : Option Operation)
    (hl : ∀ m ∈ l, m.id = id → m.operation = C) :
    ∀ m ∈ l', m.id = id → m.operation = C := by
  refine strip_eq_transfer h ?_ hl
  intro m₀ m hs hP hid
  obtain ⟨h1, _, _, h4, _, _⟩ := stripProgress_fields hs
  rw [← h4]
  exact hP (by rw [h1, hid])

/-- A submission-less handle used in the C2 counterexample. -/
def cexOp0 : Operation := { done := false, response := none }

/-- A later poll result distinct from `cexOp0` but still not done. -/
def cexOp1 : Operation := { done := false, response := some { generatedVideos := some [] } }

/-- Oracle for the C2 counterexample: submission returns `cexOp0`, every poll
returns `cexOp1`. -/
def cexApi : RemoteApi :=
  { generateImages := fun _ => .error "unused"
    generateVideos := fun _ => .ok cexOp0
    getVideosOperation := fun _ => .ok cexOp1
    fetchVideo := fun _ => .error "unused" }

/-- A fresh pending video mission for the C2 counterexample. -/
def cexMission : Mission :=
  { id := "mission_60", type := .videoGen, prompt := "a comet", status := .pending
    createdAt := 60 }

/-- C2, counterexample: run a fresh video mission for one poll iteration and
interrupt it (a reload).  The in-memory handle has advanced to the freshly
polled `cexOp1`, but the ledger still records the submission-time handle
`cexOp0`: the poll iteration did not write the latest operation handle into the
ledger. -/
theorem pollLoop_handle_not_refreshed_cex :
    (processMission cexApi 1 cexMission [cexMission] []).latestOp? = some cexOp1 ∧
    (∀ m ∈ (processMission cexApi 1 cexMission [cexMission] []).missions,
        m.operation = some cexOp0) ∧
    cexOp0 ≠ cexOp1 := by
  decide

/-- C2, amended: a poll iteration writes only the rotating progress message into
the Ledger — the operation handle (with every other field) is untouched by the
loop, so a mission interrupted at any iteration still carries the handle stored
at submission time (its recorded handle, or the submission result when it had
none), not the latest polled handle. -/
theorem videoPoll_iterations_write_only_progress :
    (∀ (api : RemoteApi) (missionId : String) (fuel : Nat) (operation : Operation)
        (msgIndex : Nat) (missions : List Mission) (events : List RemoteEvent),
      ((videoPollLoop api missionId fuel operation msgIndex missions events).1).missions.map
          Mission.stripProgress = missions.map Mission.stripProgress) ∧
    (∀ (api : RemoteApi) (fuel : Nat) (mission : Mission) (missions : List Mission)
        (store : ResultStore) (op' : Operation) (l' : List Mission) (s' : ResultStore)
        (t' : List RemoteEvent),
      (∀ m ∈ missions, m.id = mission.id → m.operation = mission.operation) →
      processMission api fuel mission missions store = .interrupted op' l' s' t' →
      ∀ m ∈ l', m.id = mission.id → m.operation = resumedHandle api mission) := by
  constructor
  · exact videoPollLoop_missions_strip
  · intro api fuel mission missions store op' l' s' t' hids heq
    cases htype : mission.type with
    | imageGen =>
      rcases hgen : generateImageFromPrompt api mission.prompt with e | imgs <;>
        simp [processMission, htype, hgen] at heq
    | videoGen =>
      cases hop : mission.operation with
      | some op =>
        simp only [processMission, htype, hop] at heq
        have hstrip := videoPhase_interrupted_strip heq
        refine strip_eq_id_op_transfer hstrip (resumedHandle api mission) ?_
        refine updateMission_id_prop ?_
        intro m₀ hm₀ hid₀
        show m₀.operation = resumedHandle api mission
        rw [hids m₀ hm₀ hid₀, resumedHandle, hop]
      | none =>
        cases hsub : api.generateVideos mission.prompt with
        | error e => simp [processMission, htype, hop, hsub] at heq
        | ok op₀ =>
          simp only [processMission, htype, hop, hsub] at heq
          have hstrip := videoPhase_interrupted_strip heq
          refine strip_eq_id_op_transfer hstrip (resumedHandle api mission) ?_
          refine updateMission_id_prop ?_
          intro m₀ _ _
          show some op₀ = resumedHandle api mission
          rw [resumedHandle, hop, hsub]

/-- C2 amended, witness: the interrupted counterexample run still records the
submission-time handle on the ledger entry. -/
theorem videoPoll_iterations_write_only_progress_witness :
    ∀ m ∈ (processMission cexApi 1 cexMission [cexMission] []).missions,
      m.id = cexMission.id → m.operation = resumedHandle cexApi cexMission := by
  exact videoPoll_iterations_write_only_progress.2 cexApi 1 cexMission [cexMission] []
    cexOp1 (processMission cexApi 1 cexMission [cexMission] []).missions
    (processMission cexApi 1 cexMission [cexMission] []).store
    (processMission cexApi 1 cexMission [cexMission] []).trace
    (by decide) (by decide)

/-- The video phase only appends non-submission events after the poll loop. -/
theorem videoPhase_trace_append (api : RemoteApi) (fuel : Nat) (missionId : String)
    (op : Operation) (l : List Mission) (store : ResultStore) (ev : List RemoteEvent) :
    ∃ extra, (videoPhase api fuel missionId op l store ev).trace
        = (videoPollLoop api missionId fuel op 0 l ev).2 ++ extra ∧
      ∀ e ∈ extra, e.isSubmit = false := by
  unfold videoPhase
  rcases hl : videoPollLoop api missionId fuel op 0 l ev with ⟨exit, evs⟩
  cases exit with
  | interrupted o ml =>
    exact ⟨[], by simp [videoPhaseFinish, ProcResult.trace], by simp⟩
  | pollError e ml =>
    refine ⟨[.markFailed missionId e], by simp [videoPhaseFinish, ProcResult.trace], ?_⟩
    simp [RemoteEvent.isSubmit]
  | done o ml =>
    cases hdl : o.downloadLink with
    | none =>
      refine ⟨[.markFailed missionId noUrlMsg],
        by simp [videoPhaseFinish, ProcResult.trace, hdl], ?_⟩
      simp [RemoteEvent.isSubmit]
    | some uri =>
      cases hf : api.fetchVideo uri with
      | error e =>
        refine ⟨[.videoFetch uri, .markFailed missionId e],
          by simp [videoPhaseFinish, ProcResult.trace, hdl, hf], ?_⟩
        intro e' he'
        fin_cases he' <;> rfl
      | ok bytes =>
        refine ⟨[.videoFetch uri, .storeWrite missionId (.blob bytes),
            .markCompleted missionId],
          by simp [videoPhaseFinish, ProcResult.trace, hdl, hf], ?_⟩
        intro e' he'
        fin_cases he' <;> rfl

/-- A not-done operation entering the loop with fuel is polled, and the poll
event is in the loop trace. -/
theorem videoPoll_mem_loop_trace (api : RemoteApi) (missionId : String) (f : Nat)
    (op : Operation) (idx : Nat) (l : List Mission) (ev : List RemoteEvent)
    (hdone : op.done = false) :
    RemoteEvent.videoPoll op ∈ (videoPollLoop api missionId (f + 1) op idx l ev).2 := by
  rw [videoPollLoop_succ api missionId f op idx l ev hdone]
  cases happ : api.getVideosOperation op with
  | error e => simp
  | ok op' =>
    rcases videoPollLoop_trace api missionId f op' (idx + 1) (progressWrite missionId idx l)
        (ev ++ [.videoPoll op]) with ⟨tail, htr, _⟩
    have hmem : RemoteEvent.videoPoll op
        ∈ (videoPollLoop api missionId f op' (idx + 1) (progressWrite missionId idx l)
            (ev ++ [.videoPoll op])).2 := by
      rw [htr]
      exact List.mem_append_left _ (List.mem_append_right _ (by simp))
    exact hmem

/-- C4: a video mission that already carries an operation handle is processed
without re-issuing submission — no submit event ever appears in its trace — and
(when the handle is not yet done and at least one iteration runs) the existing
handle itself is polled first. -/
theorem processMission_resume_skips_submit
    (api : RemoteApi) (fuel : Nat) (mission : Mission) (missions : List Mission)
    (store : ResultStore) (op : Operation)
    (htype : mission.type = .videoGen) (hop : mission.operation = some op) :
    (∀ e ∈ (processMission api fuel mission missions store).trace, e.isSubmit = false) ∧
    (op.done = false → 0 < fuel →
      RemoteEvent.videoPoll op ∈ (processMission api fuel mission missions store).trace) := by
  have hred : processMission api fuel mission missions store
      = videoPhase api fuel mission.id op (beginMission mission.id missions) store [] := by
    simp only [processMission, htype, hop]
  rw [hred]
  rcases videoPhase_trace_append api fuel mission.id op
      (beginMission mission.id missions) store [] with ⟨extra, htr, hextra⟩
  rcases videoPollLoop_trace api mission.id fuel op 0
      (beginMission mission.id missions) [] with ⟨tail, hloop, htail⟩
  constructor
  · intro e he
    rw [htr] at he
    rcases List.mem_append.mp he with he | he
    · rw [hloop] at he
      rcases htail e (by simpa using he) with ⟨o, rfl⟩
      rfl
    · exact hextra e he
  · intro hdone hfuel
    obtain ⟨f, rfl⟩ : ∃ f, fuel = f + 1 := ⟨fuel - 1, by omega⟩
    rw [htr]
    exact List.mem_append_left _
      (videoPoll_mem_loop_trace api mission.id f op 0 (beginMission mission.id missions) []
        hdone)

/-- C4 witness: resuming a pending video mission that already has the (not yet
done) handle `cexOp0` recorded performs no submission and polls `cexOp0`. -/
theorem processMission_resume_skips_submit_witness :
    (∀ e ∈ (processMission cexApi 1 { cexMission with operation := some cexOp0 }
        [{ cexMission with operation := some cexOp0 }] []).trace, e.isSubmit = false) ∧
    RemoteEvent.videoPoll cexOp0
      ∈ (processMission cexApi 1 { cexMission with operation := some cexOp0 }
          [{ cexMission with operation := some cexOp0 }] []).trace := by
  have h := processMission_resume_skips_submit cexApi 1
    { cexMission with operation := some cexOp0 }
    [{ cexMission with operation := some cexOp0 }] [] cexOp0 (by decide) (by decide)
  exact ⟨h.1, h.2 (by decide) (by decide)⟩

/-- The ledger invariant of C5: a mission carries an error exactly when it is
failed. -/
def errorInvariant (missions : List Mission) : Prop :=
  ∀ m ∈ missions, (m.error.isSome = true ↔ m.status = .failed)

/-- Strengthened invariant carried through a `processMission` run: the ledger
satisfies the error invariant and every entry matching the processed mission is
error-free. -/
def cleanFor (id : String) (l : List Mission) : Prop :=
  ∀ m ∈ l, (m.error.isSome = true ↔ m.status = .failed) ∧ (m.id = id → m.error = none)

theorem errorInvariant_of_cleanFor {id : String} {l : List Mission}
    (h : cleanFor id l) : errorInvariant l :=
  fun m hm => (h m hm).1

theorem status_ne_failed_of_error_none {m : Mission}
    (hinv : m.error.isSome = true ↔ m.status = .failed) (herr : m.error = none) :
    m.status ≠ .failed := by
  intro hst
  rw [herr] at hinv
  exact absurd (hinv.mpr hst) (by simp)

/-- A mission whose every matching entry is pending is clean, given the error
invariant. -/
theorem cleanFor_of_pending {id : String} {l : List Mission}
    (hinv : errorInvariant l) (hpend : ∀ m ∈ l, m.id = id → m.status = .pending) :
    cleanFor id l := by
  intro m hm
  refine ⟨hinv m hm, fun hid => ?_⟩
  cases herr : m.error with
  | none => rfl
  | some e =>
    have hfail : m.status = .failed := (hinv m hm).mp (by simp [herr])
    rw [hpend m hm hid] at hfail
    cases hfail

/-- Updating the matching missions with an error-preserving, non-failing update
keeps the strengthened invariant. -/
theorem cleanFor_updateMission {id : String} {l : List Mission} {f : Mission → Mission}
    (h : cleanFor id l)
    (hf : ∀ m : Mission, (m.error.isSome = true ↔ m.status = .failed) → m.error = none →
      ((f m).error.isSome = true ↔ (f m).status = .failed) ∧ (f m).error = none) :
    cleanFor id (updateMission id f l) := by
  intro m hm
  rcases mem_updateMission hm with ⟨m₀, hm₀, hid₀, rfl⟩ | ⟨hm', hne⟩
  · obtain ⟨hinv, hclean⟩ := h m₀ hm₀
    obtain ⟨hinv', herr'⟩ := hf m₀ hinv (hclean hid₀)
    exact ⟨hinv', fun _ => herr'⟩
  · obtain ⟨hinv, hclean⟩ := h m hm'
    exact ⟨hinv, hclean⟩

/-- The strengthened invariant carries across ledgers with equal
progress-stripped images. -/
theorem cleanFor_strip_transfer {id : String} {l l' : List Mission}
    (h : l'.map Mission.stripProgress = l.map Mission.stripProgress)
    (hc : cleanFor id l) : cleanFor id l' := by
  refine strip_eq_transfer h ?_ hc
  intro m₀ m hs hP
  obtain ⟨h1, h2, h3, _, _, _⟩ := stripProgress_fields hs
  refine ⟨by rw [← h3, ← h2]; exact hP.1, fun hid => by rw [← h3]; exact hP.2 (by rw [h1, hid])⟩

/-- The catch branch restores the plain error invariant. -/
theorem errorInvariant_failMission {l : List Mission} (id err : String)
    (h : errorInvariant l) : errorInvariant (failMission id err l) := by
  intro m hm
  rcases mem_updateMission hm with ⟨m₀, _, _, rfl⟩ | ⟨hm', _⟩
  · simp
  · exact h m hm'

/-- Marking the matching missions completed (after a successful video fetch)
restores the plain error invariant from the strengthened one. -/
theorem errorInvariant_complete_video {id : String} {l : List Mission}
    (hc : cleanFor id l) :
    errorInvariant (updateMission id
      (fun m => { m with status := .completed, result := some true, progressMessage := some "Done!" })
      l) := by
  refine errorInvariant_of_cleanFor (cleanFor_updateMission hc ?_)
  intro m hinv herr
  refine ⟨?_, herr⟩
  simp [herr]

/-- Marking the matching missions completed (image batch stored) restores the
plain error invariant from the strengthened one. -/
theorem errorInvariant_complete_image {id : String} {l : List Mission}
    (hc : cleanFor id l) :
    errorInvariant (updateMission id
      (fun m => { m with status := .completed, result := some true }) l) := by
  refine errorInvariant_of_cleanFor (cleanFor_updateMission hc ?_)
  intro m hinv herr
  refine ⟨?_, herr⟩
  simp [herr]

/-- The first in-progress write keeps the strengthened invariant. -/
theorem cleanFor_beginMission {id : String} {l : List Mission} (hc : cleanFor id l) :
    cleanFor id (beginMission id l) := by
  refine cleanFor_updateMission hc ?_
  intro m hinv herr
  refine ⟨?_, herr⟩
  simp [herr]

/-- A progress-message-only write keeps the strengthened invariant. -/
theorem cleanFor_progressMsg {id : String} {l : List Mission} (msg : String)
    (hc : cleanFor id l) :
    cleanFor id (updateMission id (fun m => { m with progressMessage := some msg }) l) := by
  refine cleanFor_updateMission hc ?_
  intro m hinv herr
  refine ⟨?_, herr⟩
  rw [show (({ m with progressMessage := some msg } : Mission)).error = m.error from rfl, herr]
  simp only [Option.isSome_none, Bool.false_eq_true, false_iff]
  exact status_ne_failed_of_error_none hinv herr

/-- Recording the submitted operation handle keeps the strengthened invariant. -/
theorem cleanFor_setOperation {id : String} {l : List Mission} (op : Operation)
    (hc : cleanFor id l) :
    cleanFor id (updateMission id (fun m => { m with operation := some op }) l) := by
  refine cleanFor_updateMission hc ?_
  intro m hinv herr
  refine ⟨?_, herr⟩
  rw [show (({ m with operation := some op } : Mission)).error = m.error from rfl, herr]
  simp only [Option.isSome_none, Bool.false_eq_true, false_iff]
  exact status_ne_failed_of_error_none hinv herr

/-- Every exit of the video phase satisfies the error invariant when entered
with the strengthened invariant. -/
theorem errorInvariant_videoPhase {api : RemoteApi} {fuel : Nat} {missionId : String}
    {op : Operation} {l : List Mission} {store : ResultStore} {ev : List RemoteEvent}
    (hc : cleanFor missionId l) :
    errorInvariant ((videoPhase api fuel missionId op l store ev).missions) := by
  unfold videoPhase
  have hstrip := videoPollLoop_missions_strip api missionId fuel op 0 l ev
  rcases hl : videoPollLoop api missionId fuel op 0 l ev with ⟨exit, evs⟩
  rw [hl] at hstrip
  have hc' : cleanFor missionId exit.missions := cleanFor_strip_transfer hstrip hc
  cases exit with
  | interrupted o ml =>
    exact errorInvariant_of_cleanFor hc'
  | pollError e ml =>
    exact errorInvariant_failMission missionId e (errorInvariant_of_cleanFor hc')
  | done o ml =>
    cases hdl : o.downloadLink with
    | none =>
      simp only [videoPhaseFinish, hdl, ProcResult.missions]
      exact errorInvariant_failMission missionId noUrlMsg (errorInvariant_of_cleanFor hc')
    | some uri =>
      cases hf : api.fetchVideo uri with
      | error e =>
        simp only [videoPhaseFinish, hdl, hf, ProcResult.missions]
        exact errorInvariant_failMission missionId e (errorInvariant_of_cleanFor hc')
      | ok bytes =>
        simp only [videoPhaseFinish, hdl, hf, ProcResult.missions]
        exact errorInvariant_complete_video hc'

/-- C5: every ledger operation — enqueueing a new mission, the load/requeue
effect, and a full `processMission` run (its in-progress, progress-message,
handle, completion and catch writes included) — preserves "error present iff
status failed". -/
theorem ledger_ops_preserve_error_iff_failed :
    (∀ (type' : MissionType) (prompt : String) (now : Nat) (l : List Mission),
      errorInvariant l → errorInvariant (handleStartMission type' prompt now l)) ∧
    (∀ l : List Mission, errorInvariant l → errorInvariant (requeueLoadedMissions l)) ∧
    (∀ (api : RemoteApi) (fuel : Nat) (mission : Mission) (l : List Mission)
        (store : ResultStore),
      errorInvariant l → (∀ m ∈ l, m.id = mission.id → m.status = .pending) →
      errorInvariant ((processMission api fuel mission l store).missions)) := by
  refine ⟨?_, ?_, ?_⟩
  · intro type' prompt now l hinv m hm
    rcases List.mem_append.mp hm with hm | hm
    · exact hinv m hm
    · rcases List.mem_singleton.mp hm with rfl
      simp [newMission]
  · intro l hinv
    unfold requeueLoadedMissions
    by_cases h : 0 < (l.filter fun m => m.isUnfinished).length
    · simp only [gt_iff_lt, h, if_true]
      intro m hm
      rcases List.mem_append.mp hm with hm | hm
      · exact hinv m (List.mem_filter.mp hm).1
      · rcases List.mem_map.mp hm with ⟨m₀, hm₀, rfl⟩
        obtain ⟨hm₀l, hu⟩ := List.mem_filter.mp hm₀
        have hne : m₀.status ≠ .failed := by
          intro hf
          simp [Mission.isUnfinished, hf] at hu
        have herr : m₀.error.isSome = false := by
          cases he : m₀.error with
          | none => rfl
          | some e => exact absurd ((hinv m₀ hm₀l).mp (by simp [he])) hne
        constructor
        · intro hs
          rw [show ({ m₀ with status := MissionStatus.pending } : Mission).error = m₀.error
            from rfl] at hs
          rw [herr] at hs
          cases hs
        · intro hs
          cases hs
    · simp only [gt_iff_lt, h, if_false]
      exact hinv
  · intro api fuel mission l store hinv hpend
    have hc₁ : cleanFor mission.id (beginMission mission.id l) :=
      cleanFor_beginMission (cleanFor_of_pending hinv hpend)
    cases htype : mission.type with
    | imageGen =>
      cases hgen : generateImageFromPrompt api mission.prompt with
      | error err =>
        simp only [processMission, htype, hgen, ProcResult.missions]
        exact errorInvariant_failMission mission.id err
          (errorInvariant_of_cleanFor (cleanFor_progressMsg "Generating images..." hc₁))
      | ok images =>
        simp only [processMission, htype, hgen, ProcResult.missions]
        exact errorInvariant_complete_image (cleanFor_progressMsg "Generating images..." hc₁)
    | videoGen =>
      cases hop : mission.operation with
      | some op =>
        simp only [processMission, htype, hop]
        exact errorInvariant_videoPhase hc₁
      | none =>
        cases hsub : api.generateVideos mission.prompt with
        | error err =>
          simp only [processMission, htype, hop, hsub, ProcResult.missions]
          exact errorInvariant_failMission mission.id err
            (errorInvariant_of_cleanFor (cleanFor_progressMsg "Initializing video..." hc₁))
        | ok op₀ =>
          simp only [processMission, htype, hop, hsub]
          exact errorInvariant_videoPhase
            (cleanFor_setOperation op₀ (cleanFor_progressMsg "Initializing video..." hc₁))

/-- C5 witness: all three operations evaluated at concrete inputs, with every
hypothesis discharged on concrete data. -/
theorem ledger_ops_preserve_error_iff_failed_witness :
    errorInvariant (handleStartMission .imageGen "a cat" 77 [sampleDone, sampleFailed]) ∧
    errorInvariant (requeueLoadedMissions [sampleDone, sampleRun, sampleFailed]) ∧
    errorInvariant ((processMission cexApi 1 cexMission [cexMission] []).missions) :=
  ⟨ledger_ops_preserve_error_iff_failed.1 .imageGen "a cat" 77 [sampleDone, sampleFailed]
      (by unfold errorInvariant; decide),
   ledger_ops_preserve_error_iff_failed.2.1 [sampleDone, sampleRun, sampleFailed]
     (by unfold errorInvariant; decide),
   ledger_ops_preserve_error_iff_failed.2.2 cexApi 1 cexMission [cexMission] []
     (by unfold errorInvariant; decide) (by decide)⟩

/-- A freshly stored payload is what `getResult` returns for that id. -/
theorem getResult_saveResult (id : String) (p : Payload) (store : ResultStore) :
    getResult id (saveResult id p store) = some p := by
  simp [getResult, saveResult, List.lookup]

/-- C7: processing an image mission issues exactly one remote request, which
asks for a fixed batch of 4 images; on success the returned byte sequence is
stored verbatim under the mission id strictly before the completion mark (the
trace lists the store write ahead of it), after which the store lookup returns
the sequence — of 4 entries whenever the remote returned 4 — and the mission is
completed with its result flag set; on failure the mission is failed with the
raised message. -/
theorem processMission_imageGen_spec
    (api : RemoteApi) (fuel : Nat) (mission : Mission) (l : List Mission)
    (store : ResultStore) (htype : mission.type = .imageGen) :
    (imageGenRequest mission.prompt).numberOfImages = 4 ∧
    (∀ resp : ImagesResponse,
      api.generateImages (imageGenRequest mission.prompt) = .ok resp →
      (processMission api fuel mission l store).trace
          = [.imageRequest (imageGenRequest mission.prompt),
             .storeWrite mission.id
               (.images (resp.generatedImages.map fun img => img.image.imageBytes)),
             .markCompleted mission.id] ∧
      getResult mission.id ((processMission api fuel mission l store).store)
          = some (.images (resp.generatedImages.map fun img => img.image.imageBytes)) ∧
      (resp.generatedImages.length = 4 →
        ∃ imgs, getResult mission.id ((processMission api fuel mission l store).store)
            = some (.images imgs) ∧ imgs.length = 4) ∧
      (∀ m ∈ (processMission api fuel mission l store).missions, m.id = mission.id →
        m.status = .completed ∧ m.result = some true)) ∧
    (∀ err : String,
      api.generateImages (imageGenRequest mission.prompt) = .error err →
      (processMission api fuel mission l store).trace
          = [.imageRequest (imageGenRequest mission.prompt), .markFailed mission.id err] ∧
      ∀ m ∈ (processMission api fuel mission l store).missions, m.id = mission.id →
        m.status = .failed ∧ m.error = some err) := by
  refine ⟨rfl, ?_, ?_⟩
  · intro resp hresp
    have hgen : generateImageFromPrompt api mission.prompt
        = .ok (resp.generatedImages.map fun img => img.image.imageBytes) := by
      rw [generateImageFromPrompt, hresp]
      rfl
    simp only [processMission, htype, hgen, ProcResult.trace, ProcResult.store,
      ProcResult.missions]
    refine ⟨by trivial, getResult_saveResult _ _ _, ?_, ?_⟩
    · intro hlen
      exact ⟨_, getResult_saveResult _ _ _, by simp [hlen]⟩
    · exact updateMission_id_prop fun m₀ _ _ => ⟨rfl, rfl⟩
  · intro err herr
    have hgen : generateImageFromPrompt api mission.prompt = .error err := by
      rw [generateImageFromPrompt, herr]
      rfl
    simp only [processMission, htype, hgen, ProcResult.trace, ProcResult.missions]
    exact ⟨by trivial, updateMission_id_prop fun m₀ _ _ => ⟨rfl, rfl⟩⟩

/-- Remote oracle for the C7 witness: the image call returns 4 encoded images. -/
def imgApi4 : RemoteApi :=
  { generateImages := fun _ =>
      .ok { generatedImages := [⟨⟨"i1"⟩⟩, ⟨⟨"i2"⟩⟩, ⟨⟨"i3"⟩⟩, ⟨⟨"i4"⟩⟩] }
    generateVideos := fun _ => .error "unused"
    getVideosOperation := fun o => .ok o
    fetchVideo := fun _ => .error "unused" }

/-- The image mission of C7's scenario. -/
def imgMission : Mission :=
  { id := "m1", type := .imageGen, prompt := "a cat", status := .pending, createdAt := 1 }

/-- C7 witness: the scenario mission m1, processed against a remote returning 4
images, ends completed with the 4 entries retrievable from the store. -/
theorem processMission_imageGen_spec_witness :
    getResult imgMission.id ((processMission imgApi4 0 imgMission [imgMission] []).store)
        = some (.images ["i1", "i2", "i3", "i4"]) ∧
    (∀ m ∈ (processMission imgApi4 0 imgMission [imgMission] []).missions,
      m.id = imgMission.id → m.status = .completed ∧ m.result = some true) := by
  have h := (processMission_imageGen_spec imgApi4 0 imgMission [imgMission] []
    (by decide)).2.1 { generatedImages := [⟨⟨"i1"⟩⟩, ⟨⟨"i2"⟩⟩, ⟨⟨"i3"⟩⟩, ⟨⟨"i4"⟩⟩] }
    (by rfl)
  exact ⟨h.2.1, h.2.2.2⟩

/-- C8: when the video operation reports done but its response chain yields no
result URI, the run finishes normally (nothing escapes the scheduler), the
missing-URL error — whose text contains "no" and "returned" — is thrown by the
completion step and recorded by the catch branch: every matching ledger entry
ends failed with that message, and the failure mark is in the trace. -/
theorem processMission_video_no_url_fails
    (api : RemoteApi) (fuel : Nat) (mission : Mission) (l : List Mission)
    (store : ResultStore) (op : Operation)
    (htype : mission.type = .videoGen) (hop : mission.operation = some op)
    (hdone : op.done = true) (huri : op.downloadLink = none) :
    (processMission api fuel mission l store).isFinished = true ∧
    ("no".data <:+: noUrlMsg.data) ∧
    ("returned".data <:+: noUrlMsg.data) ∧
    (∀ m ∈ (processMission api fuel mission l store).missions, m.id = mission.id →
      m.status = .failed ∧ m.error = some noUrlMsg) ∧
    RemoteEvent.markFailed mission.id noUrlMsg
      ∈ (processMission api fuel mission l store).trace := by
  have hred : processMission api fuel mission l store
      = videoPhaseFinish api mission.id store (.done op (beginMission mission.id l)) [] := by
    simp only [processMission, htype, hop, videoPhase,
      videoPollLoop_done api mission.id fuel op 0 (beginMission mission.id l) [] hdone]
  rw [hred]
  simp only [videoPhaseFinish, huri, ProcResult.isFinished, ProcResult.missions,
    ProcResult.trace]
  refine ⟨by trivial, by decide, by decide, ?_, by simp⟩
  exact updateMission_id_prop fun m₀ _ _ => ⟨rfl, rfl⟩

/-- A done operation whose response chain carries no URI. -/
def doneNoUriOp : Operation :=
  { done := true, response := some { generatedVideos := some [{ video := some { uri := none } }] } }

/-- C8 witness: scenario 3 — the final handle is done with no uri; the mission
ends failed with the missing-URL message. -/
theorem processMission_video_no_url_fails_witness :
    (processMission cexApi 3 { cexMission with operation := some doneNoUriOp }
        [{ cexMission with operation := some doneNoUriOp }] []).isFinished = true ∧
    (∀ m ∈ (processMission cexApi 3 { cexMission with operation := some doneNoUriOp }
        [{ cexMission with operation := some doneNoUriOp }] []).missions,
      m.id = cexMission.id → m.status = .failed ∧ m.error = some noUrlMsg) := by
  have h := processMission_video_no_url_fails cexApi 3
    { cexMission with operation := some doneNoUriOp }
    [{ cexMission with operation := some doneNoUriOp }] [] doneNoUriOp
    (by decide) (by decide) (by decide) (by decide)
  exact ⟨h.1, h.2.2.2.1⟩

/-! The localStorage mission ledger.  `saveMissionsToStorage` runs
`JSON.stringify` on the mission array and `getMissionsFromStorage` runs
`JSON.parse` on the stored text (returning `[]` on a missing or unparsable
item).  Stringify and parse are mutually inverse between JSON values and their
serialized text, so storage is modelled at the JSON-value level: the cell holds
the parsed value of the stored string. -/

/-- JSON values as produced by serializing a mission array. -/
inductive Json where
  | str (s : String)
  | num (n : Nat)
  | bool (b : Bool)
  | arr (xs : List Json)
  | obj (fields : List (String × Json))

/-- The serialized form of a `MissionType`. -/
def MissionType.toStr : MissionType → String
  | .imageGen => "image-gen"
  | .videoGen => "video-gen"

/-- Reading a `MissionType` back from its serialized form. -/
def MissionType.ofStr? (s : String) : Option MissionType :=
  if s = "image-gen" then some .imageGen
  else if s = "video-gen" then some .videoGen
  else none

/-- The serialized form of a `MissionStatus`. -/
def MissionStatus.toStr : MissionStatus → String
  | .pending => "pending"
  | .inProgress => "in-progress"
  | .completed => "completed"
  | .failed => "failed"

/-- Reading a `MissionStatus` back from its serialized form. -/
def MissionStatus.ofStr? (s : String) : Option MissionStatus :=
  if s = "pending" then some .pending
  else if s = "in-progress" then some .inProgress
  else if s = "completed" then some .completed
  else if s = "failed" then some .failed
  else none

/-- An optional field: `JSON.stringify` omits absent object properties. -/
def optField (k : String) : Option Json → List (String × Json)
  | none => []
  | some j => [(k, j)]

/-- String payload of a JSON value, when it is a string. -/
def Json.asStr? : Json → Option String
  | .str s => some s
  | _ => none

/-- Read an optional string property: absent is a valid outcome (`some none`),
a present non-string is a decode failure (`none`). -/
def getOptStr (fields : List (String × Json)) (k : String) : Option (Option String) :=
  match fields.lookup k with
  | none => some none
  | some j => j.asStr?.map some

/-- Read an optional boolean property. -/
def getOptBool (fields : List (String × Json)) (k : String) : Option (Option Bool) :=
  match fields.lookup k with
  | none => some none
  | some (.bool b) => some (some b)
  | some _ => none

/-- Serialization of the innermost video-uri object. -/
def VideoFile.toJson (v : VideoFile) : Json :=
  .obj (optField "uri" (v.uri.map .str))

/-- Parse of the innermost video-uri object. -/
def VideoFile.ofJson? : Json → Option VideoFile
  | .obj fields => (getOptStr fields "uri").map fun u => ⟨u⟩
  | _ => none

/-- Serialization of one generated-video entry. -/
def GeneratedVideo.toJson (gv : GeneratedVideo) : Json :=
  .obj (optField "video" (gv.video.map VideoFile.toJson))

/-- Parse of one generated-video entry. -/
def GeneratedVideo.ofJson? : Json → Option GeneratedVideo
  | .obj fields =>
    match fields.lookup "video" with
    | none => some ⟨none⟩
    | some j => (VideoFile.ofJson? j).map fun v => ⟨some v⟩
  | _ => none

/-- Parse of a generated-videos array. -/
def decodeVideosList : List Json → Option (List GeneratedVideo)
  | [] => some []
  | j :: js =>
    match GeneratedVideo.ofJson? j, decodeVideosList js with
    | some v, some vs => some (v :: vs)
    | _, _ => none

/-- Serialization of an operation response. -/
def OperationResponse.toJson (r : OperationResponse) : Json :=
  .obj (optField "generatedVideos"
    (r.generatedVideos.map fun vs => .arr (vs.map GeneratedVideo.toJson)))

/-- Parse of an operation response. -/
def OperationResponse.ofJson? : Json → Option OperationResponse
  | .obj fields =>
    match fields.lookup "generatedVideos" with
    | none => some ⟨none⟩
    | some (.arr js) => (decodeVideosList js).map fun vs => ⟨some vs⟩
    | some _ => none
  | _ => none

/-- Serialization of an operation handle. -/
def Operation.toJson (op : Operation) : Json :=
  .obj ([("done", .bool op.done)] ++ optField "response" (op.response.map OperationResponse.toJson))

/-- Parse of an operation handle. -/
def Operation.ofJson? : Json → Option Operation
  | .obj fields =>
    match fields.lookup "done" with
    | some (.bool b) =>
      match fields.lookup "response" with
      | none => some ⟨b, none⟩
      | some j => (OperationResponse.ofJson? j).map fun r => ⟨b, some r⟩
    | _ => none
  | _ => none

/-- Serialization of a mission record: required properties first, optional
properties present only when set. -/
def Mission.toJson (m : Mission) : Json :=
  .obj ([("id", .str m.id), ("type", .str m.type.toStr), ("prompt", .str m.prompt),
      ("status", .str m.status.toStr), ("createdAt", .num m.createdAt)]
    ++ optField "progressMessage" (m.progressMessage.map .str)
    ++ optField "result" (m.result.map .bool)
    ++ optField "error" (m.error.map .str)
    ++ optField "operation" (m.operation.map Operation.toJson))

/-- Read an optional operation property. -/
def getOptOperation (fields : List (String × Json)) (k : String) :
    Option (Option Operation) :=
  match fields.lookup k with
  | none => some none
  | some j => (Operation.ofJson? j).map some

/-- Parse of a mission record. -/
def Mission.ofJson? : Json → Option Mission
  | .obj fields =>
    match fields.lookup "id", fields.lookup "type", fields.lookup "prompt",
        fields.lookup "status", fields.lookup "createdAt" with
    | some (.str id), some (.str ty), some (.str pr), some (.str st), some (.num ca) =>
      match MissionType.ofStr? ty, MissionStatus.ofStr? st with
      | some ty', some st' =>
        match getOptStr fields "progressMessage", getOptBool fields "result",
            getOptStr fields "error", getOptOperation fields "operation" with
        | some pm, some res, some er, some op => some ⟨id, ty', pr, st', pm, res, er, ca, op⟩
        | _, _, _, _ => none
      | _, _ => none
    | _, _, _, _, _ => none
  | _ => none

theorem videoFile_json_roundtrip (v : VideoFile) :
    VideoFile.ofJson? (VideoFile.toJson v) = some v := by
  obtain ⟨uri⟩ := v
  cases uri <;>
    simp [VideoFile.toJson, VideoFile.ofJson?, optField, getOptStr, Json.asStr?, List.lookup]

theorem generatedVideo_json_roundtrip (gv : GeneratedVideo) :
    GeneratedVideo.ofJson? (GeneratedVideo.toJson gv) = some gv := by
  obtain ⟨video⟩ := gv
  cases video <;>
    simp [GeneratedVideo.toJson, GeneratedVideo.ofJson?, optField, List.lookup,
      videoFile_json_roundtrip]

theorem decodeVideosList_map (vs : List GeneratedVideo) :
    decodeVideosList (vs.map GeneratedVideo.toJson) = some vs := by
  induction vs with
  | nil => rfl
  | cons v vs ih => simp [decodeVideosList, generatedVideo_json_roundtrip, ih]

theorem operationResponse_json_roundtrip (r : OperationResponse) :
    OperationResponse.ofJson? (OperationResponse.toJson r) = some r := by
  obtain ⟨gv⟩ := r
  cases gv <;>
    simp [OperationResponse.toJson, OperationResponse.ofJson?, optField, List.lookup,
      decodeVideosList_map]

theorem operation_json_roundtrip (op : Operation) :
    Operation.ofJson? (Operation.toJson op) = some op := by
  obtain ⟨done, resp⟩ := op
  cases resp <;>
    simp [Operation.toJson, Operation.ofJson?, optField, List.lookup,
      operationResponse_json_roundtrip]

theorem mission_json_roundtrip (m : Mission) :
    Mission.ofJson? (Mission.toJson m) = some m := by
  obtain ⟨id, ty, pr, st, pm, res, er, ca, op⟩ := m
  cases ty <;> cases st <;> cases pm <;> cases res <;> cases er <;> cases op <;>
    simp [Mission.toJson, Mission.ofJson?, optField, List.lookup, getOptStr, getOptBool,
      getOptOperation, Json.asStr?, MissionType.toStr, MissionType.ofStr?,
      MissionStatus.toStr, MissionStatus.ofStr?, operation_json_roundtrip]

/-- Parse of a stored mission array (element-wise). -/
def decodeMissionList : List Json → Option (List Mission)
  | [] => some []
  | j :: js =>
    match Mission.ofJson? j, decodeMissionList js with
    | some m, some ms => some (m :: ms)
    | _, _ => none

/-- Parse of the stored ledger value. -/
def decodeMissions? : Json → Option (List Mission)
  | .arr xs => decodeMissionList xs
  | _ => none

/-- `getMissionsFromStorage`: parse the stored item; a missing item or a parse
failure yields the empty ledger (fail-soft). -/
def getMissionsFromStorage (storage : Option Json) : List Mission :=
  match storage with
  | none => []
  | some j =>
    match decodeMissions? j with
    | some missions => missions
    | none => []

/-- `saveMissionsToStorage`: serialize the mission array into the storage cell. -/
def saveMissionsToStorage (missions : List Mission) : Option Json :=
  some (.arr (missions.map Mission.toJson))

theorem decodeMissionList_map (missions : List Mission) :
    decodeMissionList (missions.map Mission.toJson) = some missions := by
  induction missions with
  | nil => rfl
  | cons m ms ih => simp [decodeMissionList, mission_json_roundtrip, ih]

/-- C9: the Ledger's save followed by load returns the saved list — in
particular the mission ids (in order) and the statuses are those that were
saved. -/
theorem missions_save_load_roundtrip (missions : List Mission) :
    getMissionsFromStorage (saveMissionsToStorage missions) = missions ∧
    (getMissionsFromStorage (saveMissionsToStorage missions)).map Mission.id
        = missions.map Mission.id ∧
    (getMissionsFromStorage (saveMissionsToStorage missions)).map Mission.status
        = missions.map Mission.status := by
  have h : getMissionsFromStorage (saveMissionsToStorage missions) = missions := by
    simp [getMissionsFromStorage, saveMissionsToStorage, decodeMissions?,
      decodeMissionList_map]
  exact ⟨h, by rw [h], by rw [h]⟩

end PeterPixx
